import Mathlib

/-!
Shallow embedding of `fast_civitai_lora_loader.py` from the `comfydodi` repository.

The embedding covers: the identifier parser `_parse_lora_air`, the download-history
ledger (`_load_history`, `_find_cached_entry`, `_record_entry`), the registry
resolution (`_resolve_download`, `_resolve_from_version_only`, `_probe_filename`,
`_with_token`), the download executor (`download`, `_download_with_requests`,
`_download_with_external`), and the orchestrating node method `load_fast_lora`.

Network responses, subprocess outcomes and the state of the filesystem are passed
in explicitly as oracle values; Python exceptions become `Except`/`Option` results.
-/

namespace Comfydodi

/-! ### Python primitives used by the source -/

/-- Python `str.strip()` on a character list: drop whitespace from both ends. -/
def pyStripChars (cs : List Char) : List Char :=
  ((cs.dropWhile Char.isWhitespace).reverse.dropWhile Char.isWhitespace).reverse

/-- Accumulator loop for decimal digit parsing: fails on the first non-digit. -/
def digitsValGo : List Char → Nat → Option Nat
  | [], acc => some acc
  | c :: rest, acc =>
      if c.isDigit then digitsValGo rest (10 * acc + (c.toNat - 48)) else none

/-- Value of a non-empty all-digit character list; `none` on empty or any non-digit. -/
def digitsVal : List Char → Option Nat
  | [] => none
  | cs => digitsValGo cs 0

/-- Python `int(s)`: strip whitespace, optional sign, then decimal digits.
(Underscore digit grouping is omitted; the inputs at issue are plain decimals.) -/
def pyIntChars (s : List Char) : Option Int :=
  match pyStripChars s with
  | [] => none
  | c :: rest =>
      if c = '-' then (digitsVal rest).map (fun n => -(n : Int))
      else if c = '+' then (digitsVal rest).map (fun n => (n : Int))
      else (digitsVal (c :: rest)).map (fun n => (n : Int))

/-- Python `s.split(c, 1)`: `none` when the separator does not occur, otherwise
the part before the first separator and the remainder after it. -/
def splitAtFirst : List Char → Option (List Char × List Char)
  | [] => none
  | c :: rest =>
      if c = '@' then some ([], rest)
      else
        match splitAtFirst rest with
        | none => none
        | some (l, r) => some (c :: l, r)

/-- Python `os.path.basename` (POSIX): text after the last slash. -/
def basenameChars (cs : List Char) : List Char :=
  (cs.reverse.takeWhile (fun c => c ≠ '/')).reverse

/-- `os.path.basename` on strings. -/
def pyBasename (s : String) : String :=
  ⟨basenameChars s.data⟩

/-! ### `_parse_lora_air` (source lines 304-318) -/

/-- `_parse_lora_air(lora_air)`: empty input raises; otherwise strip, split at the
first `@`, parse the left segment as the model id (required) and the right one as
the version id (optional, empty segment means absent). Errors carry the Python
exception messages. -/
def _parse_lora_air (lora_air : String) : Except String (Int × Option Int) :=
  if lora_air = "" then .error "LORA AIR identifier required (ex: 12345@67890)"
  else
    let stripped := pyStripChars lora_air.data
    let parts : List Char × Option (List Char) :=
      match splitAtFirst stripped with
      | none => (stripped, none)
      | some (l, r) => (l, some r)
    match pyIntChars parts.1 with
    | none => .error "Invalid model ID provided"
    | some model_id =>
        match parts.2 with
        | none => .ok (model_id, none)
        | some r =>
            if r = [] then .ok (model_id, none)
            else
              match pyIntChars r with
              | none => .error "Invalid version ID provided"
              | some v => .ok (model_id, some v)

/-! ### Download ledger data model (the JSON history file) -/

/-- A JSON file entry in the ledger: `{"id": ..., "name": ..., "downloadUrl": ...}`.
Absent keys are `none`. -/
structure FileRec where
  id : Option Int
  name : Option String
  downloadUrl : Option String
  deriving Repr, DecidableEq

/-- A JSON version entry: `{"id": ..., "files": [...]}`.  A missing `files` key is
modelled as the empty list (the source reads it with `get(..., [])`/`setdefault`). -/
structure VersionRec where
  id : Option Int
  files : List FileRec
  deriving Repr, DecidableEq

/-- The ledger: a JSON object mapping model-id strings to version entries, modelled
as an association list in insertion order (Python dicts preserve insertion order). -/
abbrev History : Type := List (String × List VersionRec)

/-- Python `history.get(key, [])`. -/
def histGet (h : History) (k : String) : List VersionRec :=
  match h.find? (fun p => p.1 = k) with
  | some p => p.2
  | none => []

/-- Replace the value at a key (first occurrence), or append the binding at the end
(Python dict insertion-order update). -/
def histSet : History → String → List VersionRec → History
  | [], k, v => [(k, v)]
  | (k', v') :: rest, k, v =>
      if k' = k then (k, v) :: rest else (k', v') :: histSet rest k v

/-- Apply `f` to the first list element satisfying `p` (in-place mutation of the
entry found by the source's linear scan). -/
def updateFirst (p : VersionRec → Bool) (f : VersionRec → VersionRec) :
    List VersionRec → List VersionRec
  | [] => []
  | x :: xs => if p x then f x :: xs else x :: updateFirst p f xs

/-- State of the history file on disk, as distinguished by the body of
`_load_history`: missing; `OSError` while opening or reading; content that is
UTF-8 but fails JSON parsing (`json.JSONDecodeError`); content whose raw bytes
do not decode as UTF-8 at all (the file is opened with `encoding="utf-8"`, so
`json.load`'s read raises `UnicodeDecodeError`); or a successfully parsed
ledger. -/
inductive HistoryFileState where
  | missing
  | unreadable (oserror : String)
  | malformed (jsonerror : String)
  | undecodable (content : List Nat)
  | valid (h : History)

/-- `_load_history()` (lines 22-29): returns the parsed ledger, and the empty
ledger on a missing file, an `OSError`, or a `json.JSONDecodeError` — those are
the only exception classes the `except` clause on line 27 names.  A backing file
whose bytes do not decode as UTF-8 raises `UnicodeDecodeError` (a sibling of
`json.JSONDecodeError` under `ValueError`, caught by neither handler), so that
exception escapes: the result is modelled as `Except`, with `.error` for the
escaping exception. -/
def _load_history : HistoryFileState → Except String History
  | .missing => .ok []
  | .unreadable _ => .ok []
  | .malformed _ => .ok []
  | .undecodable _ => .error "UnicodeDecodeError"
  | .valid h => .ok h

/-- Modelled from the spec: `model_path(name, LORA_PATHS)` from the repository's
`utils` module, which is not part of the provided sources.  Per spec section 4.2
(`findExistingFile`): scan all configured directories for a file with the given
name and return the first match, ties resolved by first-configured-root priority.
A directory is modelled as its path together with the names of the files in it. -/
def model_path (name : String) : List (String × List String) → Option String
  | [] => none
  | (d, fs) :: rest =>
      if name ∈ fs then some (d ++ "/" ++ name) else model_path name rest

/-- Inner loop of `_find_cached_entry` over one version entry's `files` list:
skip entries with a falsy name (`None` or `""`), return the first name that
`model_path` resolves in the configured directories. -/
def findFileIn (dirs : List (String × List String)) : List FileRec → Option String
  | [] => none
  | f :: rest =>
      match f.name with
      | none => findFileIn dirs rest
      | some n =>
          if n = "" then findFileIn dirs rest
          else if (model_path n dirs).isSome then some n
          else findFileIn dirs rest

/-- Outer loop of `_find_cached_entry` over the model's version entries: when a
version id is requested, entries whose `id` differs (including `null` ids) are
skipped. -/
def findEntryIn (dirs : List (String × List String)) (version_id : Option Int) :
    List VersionRec → Option String
  | [] => none
  | e :: rest =>
      if version_id.isSome && e.id ≠ version_id then findEntryIn dirs version_id rest
      else
        match findFileIn dirs e.files with
        | some n => some n
        | none => findEntryIn dirs version_id rest

/-- `_find_cached_entry(history, model_id, version_id)` (lines 40-52). -/
def _find_cached_entry (dirs : List (String × List String)) (history : History)
    (model_id : Int) (version_id : Option Int) : Option String :=
  findEntryIn dirs version_id (histGet history (toString model_id))

/-- `_record_entry(history, model_id, version_id, file_name, download_url)`
(lines 55-74).  Returns the updated ledger and whether `_save_history` was called
(it is called exactly when a new file record was appended). -/
def _record_entry (history : History) (model_id : Int) (version_id : Option Int)
    (file_name : String) (download_url : String) : History × Bool :=
  let model_key := toString model_id
  let entries := histGet history model_key
  match entries.find? (fun e => e.id = version_id) with
  | some ve =>
      if ve.files.any (fun f => f.name = some file_name) then (history, false)
      else
        (histSet history model_key
          (updateFirst (fun e => e.id = version_id)
            (fun e => { e with files := e.files ++ [⟨none, some file_name, some download_url⟩] })
            entries), true)
  | none =>
      (histSet history model_key
        (entries ++ [⟨version_id, [⟨none, some file_name, some download_url⟩]⟩]), true)

/-- The `files` list of the ledger's version record for `(model_id, version_id)`
(empty when there is no such record). -/
def versionFiles (history : History) (model_id : Int) (version_id : Option Int) :
    List FileRec :=
  match (histGet history (toString model_id)).find? (fun e => e.id = version_id) with
  | some ve => ve.files
  | none => []

/-- The filenames `_find_cached_entry` considers, written from the spec's words:
the names listed under version records matching the lookup (all records when no
version id is given, only records with that exact id otherwise), with falsy names
dropped, in ledger order. -/
def candidateNames (history : History) (model_id : Int) (version_id : Option Int) :
    List String :=
  ((histGet history (toString model_id)).filter
      (fun e => version_id.isNone || e.id == version_id)).flatMap
    (fun e => (e.files.filterMap (fun f => f.name)).filter (fun n => n ≠ ""))

/-! ### Registry client (`FastCivitAIDownloader` resolution methods) -/

/-- One entry of a version's `files` array in the registry's JSON.  `primary`
holds the truthiness of the `primary` field (absent or false both count as
not flagged), `name` and `downloadUrl` are `none` when the key is absent or null. -/
structure FileInfo where
  primary : Bool
  name : Option String
  downloadUrl : Option String
  deriving Repr, DecidableEq

/-- Version metadata as consumed by `_resolve_download`: the version `id`, the
`files` array (absent/null modelled as `[]`, matching `details.get("files") or []`),
and an optional version-level `downloadUrl`. -/
structure VersionDetails where
  id : Option Int
  files : List FileInfo
  downloadUrl : Option String
  deriving Repr, DecidableEq

/-- Model metadata as consumed by `_resolve_download`: the `modelVersions` array
(absent/null modelled as `[]`, matching `details.get("modelVersions") or []`). -/
structure ModelDetails where
  modelVersions : List VersionDetails
  deriving Repr, DecidableEq

/-- A HEAD response observed by `_probe_filename`: status code, optional
`Content-Disposition` header, and the final redirected URL (`response.url`,
empty string when falsy). -/
structure ProbeResponse where
  status : Nat
  contentDisposition : Option String
  finalUrl : String
  deriving Repr, DecidableEq

/-- The network oracle: what each registry endpoint returns on this run.
`fetchVersion`/`fetchModel` give the JSON for `_fetch` or the `RuntimeError`
message it raises; `probe` gives the HEAD response for a URL, `none` standing
for a raised `requests.exceptions.RequestException`. -/
structure Registry where
  fetchVersion : Int → Except String VersionDetails
  fetchModel : Int → Except String ModelDetails
  probe : String → Option ProbeResponse

/-- Python `needle in hay` on strings: substring occurrence. -/
def hasSubstr (needle : List Char) : List Char → Bool
  | [] => needle.isEmpty
  | c :: rest => needle.isPrefixOf (c :: rest) || hasSubstr needle rest

/-- `_with_token(url)` (lines 159-165): append `token=` as a query parameter
unless no token is configured or one is already present. -/
def _with_token (token : Option String) (url : String) : String :=
  match token with
  | none => url
  | some t =>
      if hasSubstr "token=".data url.data then url
      else
        let separator := if url.data.contains '?' then "&" else "?"
        url ++ separator ++ "token=" ++ t

/-- Python `a or b` on string-valued JSON fields: `a` unless it is falsy
(absent or empty), else `b`. -/
def pyOrStr (a b : Option String) : Option String :=
  match a with
  | some s => if s = "" then b else some s
  | none => b

/-- Text after the first occurrence of `"filename="`, if any
(`content_disposition.split("filename=", 1)[1]`). -/
def afterFilenameMarker : List Char → Option (List Char)
  | [] => none
  | c :: rest =>
      if ("filename=".data).isPrefixOf (c :: rest) then
        some ((c :: rest).drop ("filename=".data).length)
      else afterFilenameMarker rest

/-- Python `s.strip(c)` for the double-quote character: drop `"` from both ends. -/
def stripQuotes (cs : List Char) : List Char :=
  ((cs.dropWhile (fun c => c = '"')).reverse.dropWhile (fun c => c = '"')).reverse

/-- `_probe_filename(url)` (lines 143-157): HEAD the URL; on a request exception
or a status of 400 or more return `none`; otherwise extract the filename from a
`Content-Disposition` header when one names it, else fall back to the basename of
the final URL. -/
def _probe_filename (probe : String → Option ProbeResponse) (url : String) :
    Option String :=
  match probe url with
  | none => none
  | some r =>
      if 400 ≤ r.status then none
      else
        let fallback : String :=
          pyBasename (if r.finalUrl = "" then url else r.finalUrl)
        match r.contentDisposition with
        | none => some fallback
        | some cd =>
            match afterFilenameMarker cd.data with
            | none => some fallback
            | some tail =>
                let name := stripQuotes tail
                if name = [] then some fallback else some ⟨name⟩

/-- The file-selection step of `_resolve_download` (lines 125-128): an empty
`files` list raises; otherwise the first file flagged `primary`, else the first
file of the list. -/
def selectPrimaryFile : List FileInfo → Except String FileInfo
  | [] => .error "Model version has no downloadable files"
  | f0 :: rest =>
      .ok (((f0 :: rest).find? (fun item => item.primary)).getD f0)

/-- The tail of `_resolve_download` (lines 125-134), shared by both fetch
branches: select the file, determine the download URL (file-level, else
version-level), derive the filename (file-level, else URL basename), and append
the token. -/
def finishResolve (token : Option String) (model_id : Int) (version_id : Option Int)
    (details : VersionDetails) : Except String (Int × Option Int × String × String) :=
  match selectPrimaryFile details.files with
  | .error e => .error e
  | .ok primary_file =>
      match pyOrStr primary_file.downloadUrl details.downloadUrl with
      | none => .error "No download URL returned by CivitAI"
      | some u =>
          if u = "" then .error "No download URL returned by CivitAI"
          else
            let file_name :=
              match pyOrStr primary_file.name (some (pyBasename u)) with
              | some n => n
              | none => pyBasename u
            .ok (model_id, version_id, file_name, _with_token token u)

/-- `_resolve_from_version_only(model_id, version_id)` (lines 136-141): synthesize
the direct-download URL for the version, probe for a filename, and fall back to the
`civitai_model_<id>.safetensors` placeholder when the probe yields nothing.  Total:
this path cannot raise. -/
def _resolve_from_version_only (probe : String → Option ProbeResponse)
    (token : Option String) (model_id : Int) (version_id : Int) :
    Int × Int × String × String :=
  let download_url :=
    _with_token token ("https://civitai.com/api/download/models/" ++ toString version_id)
  let file_name :=
    match _probe_filename probe download_url with
    | some n => if n = "" then "civitai_model_" ++ toString version_id ++ ".safetensors" else n
    | none => "civitai_model_" ++ toString version_id ++ ".safetensors"
  (model_id, version_id, file_name, download_url)

/-- The branch of `_resolve_download` taken when no (truthy) version id is given
(lines 117-123): fetch the model, require a non-empty `modelVersions` list, use
its first entry. -/
def resolveLatest (reg : Registry) (token : Option String) (model_id : Int) :
    Except String (Int × Option Int × String × String) :=
  match reg.fetchModel model_id with
  | .error e => .error e
  | .ok details =>
      match details.modelVersions with
      | [] => .error "Model has no versions available"
      | v :: _ => finishResolve token model_id v.id v

/-- `_resolve_download(model_id, version_id)` (lines 110-134).  Python's
`if version_id:` is truthiness, so `None` and `0` both take the model branch.
A failing version fetch falls back to `_resolve_from_version_only`. -/
def _resolve_download (reg : Registry) (token : Option String) (model_id : Int) :
    Option Int → Except String (Int × Option Int × String × String)
  | some vid =>
      if vid = 0 then resolveLatest reg token model_id
      else
        match reg.fetchVersion vid with
        | .error _ =>
            match _resolve_from_version_only reg.probe token model_id vid with
            | (m, v, n, u) => .ok (m, some v, n, u)
        | .ok details => finishResolve token model_id (some vid) details
  | none => resolveLatest reg token model_id

/-! ### Download executor -/

/-- The downloader configuration fields that the modelled methods consult
(`self.token`, `self.fallback`, `self.prefer_tools_first`). -/
structure Downloader where
  token : Option String
  fallback : String
  prefer_tools_first : Bool
  deriving Repr, DecidableEq

/-- The filesystem, as far as the claims need it: the set of existing paths. -/
abbrev FS : Type := List String

/-- `os.remove` (the source always guards it with `os.path.exists` and swallows
`OSError`; removal itself is modelled as reliable). -/
def fsRemove (fs : FS) (p : String) : FS := fs.filter (fun q => q ≠ p)

/-- Creating (or truncating) a file at a path: `open(path, "wb")`. -/
def fsAdd (fs : FS) (p : String) : FS := if p ∈ fs then fs else p :: fs

/-- A streaming GET as observed by `_download_with_requests`: the status code and
whether iterating the body raises mid-stream. -/
structure HttpStream where
  status : Nat
  midStreamError : Bool
  deriving Repr, DecidableEq

/-- `_download_with_requests(url, destination)` (lines 191-206); the oracle `resp`
is `none` when `session.get` itself raises.  Result: the filesystem afterwards and
the raised error message, if any.  On any exception the destination is removed
if it exists, then the exception propagates. -/
def _download_with_requests (d : Downloader) (fs : FS) (resp : Option HttpStream)
    (destination : String) : FS × Option String :=
  let _ := d
  match resp with
  | none => (fsRemove fs destination, some "request exception")
  | some r =>
      if r.status ≠ 200 then
        (fsRemove fs destination, some ("HTTP " ++ toString r.status))
      else
        let fs1 := fsAdd fs destination
        if r.midStreamError then (fsRemove fs1 destination, some "stream interrupted")
        else (fs1, none)

/-- Outcome of one external-tool `subprocess.run` invocation: either it completed
with return code 0 (`check=True`), having created the destination file or not, or
it raised (`CalledProcessError` or `FileNotFoundError`) with a message, possibly
leaving a partial destination file behind. -/
inductive ToolOutcome where
  | ran (createdFile : Bool)
  | failed (msg : String) (leftFile : Bool)
  deriving Repr, DecidableEq

/-- The per-command loop of `_download_with_external` (lines 219-237): on a
completed run with the destination present, succeed; on a tool exception, clean up
the destination, record the message and continue; exhausting the list raises the
joined messages, or the generic message when none were recorded. -/
def runCommands (dest : String) : List ToolOutcome → FS → List String → FS × Option String
  | [], fs, errs =>
      if errs.isEmpty then (fs, some "External download attempts failed")
      else (fs, some (String.intercalate "; " errs))
  | .ran created :: rest, fs, errs =>
      let fs1 := if created then fsAdd fs dest else fs
      if dest ∈ fs1 then (fs1, none)
      else runCommands dest rest fs1 errs
  | .failed msg left :: rest, fs, errs =>
      let fs1 := if left then fsAdd fs dest else fs
      runCommands dest rest (fsRemove fs1 dest) (errs ++ [msg])

/-- `_download_with_external(url, destination)` (lines 208-237): delete any file
already at the destination, then try each runnable command in order; an empty
command list (no compatible tool) raises.  The oracle `cmds` gives the outcome of
each command `_external_commands` produced. -/
def _download_with_external (fs : FS) (dest : String) (cmds : List ToolOutcome) :
    FS × Option String :=
  let fs0 := fsRemove fs dest
  match cmds with
  | [] => (fs0, some "No compatible external downloader found (install aria2c, wget, or curl)")
  | _ => runCommands dest cmds fs0 []

/-- The strategy-ordering logic of `download` (lines 167-189), after resolution:
with `prefer_tools_first` try the external tools and fall back to direct
streaming, raising `"<external>; <primary>"` when both fail; otherwise try direct
streaming and fall back to the external tools, whose own error propagates
unchanged when they also fail. -/
def download (d : Downloader) (fs : FS) (cmds : List ToolOutcome)
    (resp : Option HttpStream) (dest : String) : FS × Option String :=
  if d.prefer_tools_first then
    match _download_with_external fs dest cmds with
    | (fs1, none) => (fs1, none)
    | (fs1, some external_error) =>
        match _download_with_requests d fs1 resp dest with
        | (fs2, none) => (fs2, none)
        | (fs2, some primary_error) =>
            (fs2, some (external_error ++ "; " ++ primary_error))
  else
    match _download_with_requests d fs resp dest with
    | (fs1, none) => (fs1, none)
    | (fs1, some _) => _download_with_external fs1 dest cmds

/-! ### Orchestrator: `CivitAI_Fast_LORA_Loader.load_fast_lora` (lines 345-380) -/

/-- Externally visible activity of one `load_fast_lora` call, in order:
reading the ledger file, registry/metadata HTTP traffic, the byte transfer, and
writing the ledger file. -/
inductive Action where
  | ledgerLoad
  | registryCall
  | transferCall
  | ledgerSave
  deriving Repr, DecidableEq

/-- The environment of one `load_fast_lora` call: the ledger the history file
parses to, the configured LoRA directories with their contents (for
`_find_cached_entry` / `model_path`), and the outcome of
`FastCivitAIDownloader.download` — `(file_name, download_url)` on success, the
raised message on failure.  The downloader's registry and transfer work is
summarized by this outcome. -/
structure LoadEnv where
  history : History
  dirs : List (String × List String)
  downloadResult : Except String (String × String)

/-- `load_fast_lora(lora_air, lora_name, ...)` (lines 345-380): an override name
that is truthy and not `"none"` is returned as is; otherwise the identifier is
parsed, the ledger is consulted and a cached name is returned when one still
exists on disk; otherwise the downloader runs and the result is recorded.
Alongside the result, the list of `Action`s performed. -/
def load_fast_lora (env : LoadEnv) (lora_air : String) (lora_name : String) :
    Except String String × List Action :=
  if lora_name ≠ "" && lora_name ≠ "none" then (.ok lora_name, [])
  else
    match _parse_lora_air lora_air with
    | .error e => (.error e, [])
    | .ok (model_id, version_id) =>
        let history := env.history
        match _find_cached_entry env.dirs history model_id version_id with
        | some cached => (.ok cached, [.ledgerLoad])
        | none =>
            match env.downloadResult with
            | .error e => (.error e, [.ledgerLoad, .registryCall, .transferCall])
            | .ok (file_name, download_url) =>
                let rec1 := _record_entry history model_id version_id file_name download_url
                (.ok file_name,
                  [.ledgerLoad, .registryCall, .transferCall] ++
                    (if rec1.2 then [.ledgerSave] else []))

/-! ### Concrete sample data used to exercise the definitions -/

/-- A sample directory configuration: one LoRA root containing `b.st`. -/
def sampleDirs : List (String × List String) := [("/loras", ["b.st"])]

/-- A sample ledger: model 12, version 67, one recorded file `b.st`. -/
def sampleHistory : History :=
  [("12", [⟨some 67, [⟨none, some "b.st", some "u"⟩]⟩])]

/-- A sample orchestrator environment over the sample ledger and directories. -/
def sampleEnv : LoadEnv := ⟨sampleHistory, sampleDirs, .ok ("new.st", "u")⟩

/-- A sample registry whose version endpoint fails and whose probe raises. -/
def sampleRegistry : Registry :=
  ⟨fun _ => .error "API request failed with status 500",
   fun _ => .error "API request failed with status 500",
   fun _ => none⟩

/-! ## Theorems -/

/-! ### Supporting lemmas -/

theorem fsRemove_not_mem (fs : FS) (p : String) : p ∉ fsRemove fs p := by
  simp [fsRemove]

theorem histGet_histSet (h : History) (k : String) (v : List VersionRec) :
    histGet (histSet h k v) k = v := by
  induction h with
  | nil => simp [histSet, histGet, List.find?]
  | cons kv rest ih =>
      by_cases hk : kv.1 = k
      · simp [histSet, hk, histGet, List.find?]
      · cases kv with
        | mk k' v' =>
            simp only at hk
            simp only [histSet, if_neg hk]
            simpa [histGet, List.find?_cons, hk] using ih

theorem find?_updateFirst (p : VersionRec → Bool) (f : VersionRec → VersionRec)
    (hp : ∀ y, p (f y) = p y) :
    ∀ (l : List VersionRec) (x : VersionRec), l.find? p = some x →
      (updateFirst p f l).find? p = some (f x) := by
  intro l
  induction l with
  | nil => intro x hx; simp [List.find?] at hx
  | cons a rest ih =>
      intro x hx
      by_cases ha : p a = true
      · rw [List.find?_cons_of_pos _ ha] at hx
        cases hx
        simp only [updateFirst, if_pos ha]
        exact List.find?_cons_of_pos _ (by rw [hp]; exact ha)
      · rw [List.find?_cons_of_neg _ ha] at hx
        have hfa : p (f a) ≠ true := by rw [hp]; exact ha
        simp only [updateFirst, if_neg ha]
        rw [List.find?_cons_of_neg _ ha]
        exact ih x hx

/-! ### Claim theorems -/

/-- C9: the claim — every missing, unreadable, or malformed backing file yields
an empty ledger and the load never raises — matches the code's evident intent
(the `try`/`except` exists to make corrupt state non-fatal) but not its
behaviour.  The guarded states behave as claimed: a missing file, an `OSError`,
and a `json.JSONDecodeError` each yield the empty ledger.  But a backing file
whose content does not decode as UTF-8 — malformed content, e.g. the bytes
`0xFF 0xFE` — makes `json.load` raise `UnicodeDecodeError`, which the `except`
clause on line 27 does not catch, so the operation raises: evaluated at that
failing input, `_load_history` is an error, not the empty ledger. -/
theorem C9_load_history_raises_on_undecodable :
    _load_history (.undecodable [255, 254]) = .error "UnicodeDecodeError" ∧
    _load_history (.undecodable [255, 254]) ≠ .ok [] ∧
    _load_history .missing = .ok [] ∧
    (∀ e, _load_history (.unreadable e) = .ok []) ∧
    (∀ e, _load_history (.malformed e) = .ok []) :=
  ⟨rfl, fun h => Except.noConfusion h, rfl, fun _ => rfl, fun _ => rfl⟩

/-- C5: whenever `_download_with_requests` raises — the GET itself raising, a
non-success status, or a mid-stream exception — the destination file does not
exist afterwards.  The method never reads the fallback configuration, so this
holds for every configured fallback strategy `d`. -/
theorem C5_requests_failure_cleanup (d : Downloader) (fs : FS)
    (resp : Option HttpStream) (dest : String) (e : String)
    (hfail : (_download_with_requests d fs resp dest).2 = some e) :
    dest ∉ (_download_with_requests d fs resp dest).1 := by
  unfold _download_with_requests at *
  cases resp with
  | none => exact fsRemove_not_mem fs dest
  | some r =>
      by_cases hs : r.status ≠ 200
      · simp only [if_pos hs]
        exact fsRemove_not_mem fs dest
      · simp only [if_neg hs] at hfail ⊢
        by_cases hm : r.midStreamError = true
        · simp only [hm, if_pos rfl]
          exact fsRemove_not_mem (fsAdd fs dest) dest
        · simp [eq_false_of_ne_true hm] at hfail

/-- Witness for C5 at a concrete input: a pre-existing destination, a GET that
raises, so the result is a failure and the destination is gone. -/
theorem C5_witness :
    "x" ∉ (_download_with_requests ⟨none, "aria2c", true⟩ ["x"] none "x").1 :=
  C5_requests_failure_cleanup ⟨none, "aria2c", true⟩ ["x"] none "x"
    "request exception" rfl

/-- C3: the registry client's file selection (`selectPrimaryFile`, the selection
step of `_resolve_download`): an empty file list raises `RuntimeError`; otherwise
the first file flagged `primary` is selected, and when none is flagged the first
file of the list is selected. -/
theorem C3_primary_file_selection :
    (selectPrimaryFile [] = .error "Model version has no downloadable files") ∧
    (∀ (files : List FileInfo) (f : FileInfo),
        files.find? (fun item => item.primary) = some f →
        selectPrimaryFile files = .ok f) ∧
    (∀ (f0 : FileInfo) (rest : List FileInfo),
        (f0 :: rest).find? (fun item => item.primary) = none →
        selectPrimaryFile (f0 :: rest) = .ok f0) := by
  refine ⟨rfl, ?_, ?_⟩
  · intro files f hf
    cases files with
    | nil => simp [List.find?] at hf
    | cons f0 rest => simp [selectPrimaryFile, hf]
  · intro f0 rest hnone
    simp [selectPrimaryFile, hnone]

/-- Witness for C3 at the spec's own example: of
`[{primary: false, name: "A"}, {primary: true, name: "B"}]` the file named `B`
is selected. -/
theorem C3_witness :
    selectPrimaryFile
        [⟨false, some "A", none⟩, ⟨true, some "B", none⟩] =
      .ok ⟨true, some "B", none⟩ :=
  C3_primary_file_selection.2.1
    [⟨false, some "A", none⟩, ⟨true, some "B", none⟩] ⟨true, some "B", none⟩ rfl

/-- C4: when a truthy version id is given and the version metadata fetch raises,
`_resolve_download` falls back to `_resolve_from_version_only`: it returns
successfully (never raises), the download URL is the synthesized direct-download
template for that version id, and when the filename probe cannot determine a name
the placeholder `civitai_model_<versionId>.safetensors` is produced. -/
theorem C4_degraded_resolution (reg : Registry) (token : Option String)
    (mid vid : Int) (e : String) (hvid : vid ≠ 0)
    (hfail : reg.fetchVersion vid = .error e) :
    ∃ name,
      _resolve_download reg token mid (some vid) =
        .ok (mid, some vid, name,
          _with_token token
            ("https://civitai.com/api/download/models/" ++ toString vid)) ∧
      (_probe_filename reg.probe
          (_with_token token
            ("https://civitai.com/api/download/models/" ++ toString vid)) = none →
        name = "civitai_model_" ++ toString vid ++ ".safetensors") := by
  refine ⟨(_resolve_from_version_only reg.probe token mid vid).2.2.1, ?_, ?_⟩
  · simp only [_resolve_download, if_neg hvid, hfail]
    rfl
  · intro hp
    simp [_resolve_from_version_only, hp]

/-- Witness for C4 at a concrete input: registry down, probe raising; resolution
yields the synthesized URL and the placeholder filename. -/
theorem C4_witness :
    _resolve_download sampleRegistry none 12 (some 67) =
      .ok (12, some 67, "civitai_model_67.safetensors",
        "https://civitai.com/api/download/models/67") := by
  obtain ⟨name, h1, h2⟩ :=
    C4_degraded_resolution sampleRegistry none 12 67
      "API request failed with status 500" (by decide) rfl
  rw [h2 rfl] at h1
  exact h1

theorem runCommands_failure_not_mem (dest : String) :
    ∀ (cmds : List ToolOutcome) (fs : FS) (errs : List String) (e : String),
      dest ∉ fs → (runCommands dest cmds fs errs).2 = some e →
      dest ∉ (runCommands dest cmds fs errs).1 := by
  intro cmds
  induction cmds with
  | nil =>
      intro fs errs e hmem _
      by_cases he : errs.isEmpty
      · simpa [runCommands, he] using hmem
      · simpa [runCommands, he] using hmem
  | cons c rest ih =>
      intro fs errs e hmem hfail
      cases c with
      | ran created =>
          cases created with
          | true =>
              have hdest : dest ∈ fsAdd fs dest := by
                by_cases h : dest ∈ fs <;> simp [fsAdd, h]
              have hrun : runCommands dest (ToolOutcome.ran true :: rest) fs errs =
                  (fsAdd fs dest, none) := by
                simp [runCommands, hdest]
              rw [hrun] at hfail
              simp at hfail
          | false =>
              have hrun : runCommands dest (ToolOutcome.ran false :: rest) fs errs =
                  runCommands dest rest fs errs := by
                simp [runCommands, hmem]
              rw [hrun] at hfail ⊢
              exact ih fs errs e hmem hfail
      | failed msg left =>
          have hrun : runCommands dest (ToolOutcome.failed msg left :: rest) fs errs =
              runCommands dest rest
                (fsRemove (if left then fsAdd fs dest else fs) dest) (errs ++ [msg]) := by
            simp [runCommands]
          rw [hrun] at hfail ⊢
          exact ih _ _ e (fsRemove_not_mem _ dest) hfail

/-- C10: `_download_with_external` first deletes any file already present at the
destination (also when no tool at all is runnable), and whenever it raises —
every external tool having failed — no file exists at the destination afterwards,
in particular not one that existed before the invocation. -/
theorem C10_external_deletes_preexisting (fs : FS) (dest : String)
    (cmds : List ToolOutcome) (e : String)
    (hfail : (_download_with_external fs dest cmds).2 = some e) :
    dest ∉ (_download_with_external fs dest cmds).1 := by
  unfold _download_with_external at *
  cases cmds with
  | nil => exact fsRemove_not_mem fs dest
  | cons c rest =>
      exact runCommands_failure_not_mem dest (c :: rest) (fsRemove fs dest) [] e
        (fsRemove_not_mem fs dest) hfail

/-- Witness for C10 at a concrete input: the destination exists beforehand, both
tools fail, and afterward the destination no longer exists. -/
theorem C10_witness :
    "x" ∉ (_download_with_external ["x"]
        "x" [.failed "e1" true, .failed "e2" false]).1 :=
  C10_external_deletes_preexisting ["x"] "x"
    [.failed "e1" true, .failed "e2" false] "e1; e2" rfl

/-- Counterexample to C6 as stated: with the tools-as-fallback ordering
(`prefer_tools_first = false`), direct streaming fails with `HTTP 500` and the
single external tool fails with `EXTERR`; the raised message is exactly `EXTERR`
and does not contain the direct-streaming error, so the overall failure does not
combine both strategies' error messages. -/
theorem C6_counterexample :
    (download ⟨none, "aria2c", false⟩ [] [.failed "EXTERR" false]
        (some ⟨500, false⟩) "x").2 = some "EXTERR" ∧
    hasSubstr "HTTP 500".data "EXTERR".data = false :=
  ⟨rfl, rfl⟩

/-- C6 amended: under the tools-preferred ordering (`prefer_tools_first = true`),
when the external tools fail with message `e` and direct streaming then fails with
message `p`, the overall raised message is `e ++ "; " ++ p`, combining both
strategies.  Under the tools-as-fallback ordering (`prefer_tools_first = false`),
when direct streaming fails the external tools are tried in order and, when they
also fail, their own raised error propagates unchanged — the direct-streaming
error message is logged but not part of the raised message. -/
theorem C6_error_aggregation (d : Downloader) (fs : FS) (cmds : List ToolOutcome)
    (resp : Option HttpStream) (dest : String) :
    (∀ fs1 e fs2 p, d.prefer_tools_first = true →
      _download_with_external fs dest cmds = (fs1, some e) →
      _download_with_requests d fs1 resp dest = (fs2, some p) →
      download d fs cmds resp dest = (fs2, some (e ++ "; " ++ p))) ∧
    (∀ fs1 p, d.prefer_tools_first = false →
      _download_with_requests d fs resp dest = (fs1, some p) →
      download d fs cmds resp dest = _download_with_external fs1 dest cmds) := by
  constructor
  · intro fs1 e fs2 p hpref hext hreq
    simp [download, hpref, hext, hreq]
  · intro fs1 p hpref hreq
    simp [download, hpref, hreq]

/-- Witness for the amended C6 at a concrete input: tools-preferred ordering,
tool failure `EXTERR`, direct-streaming failure `HTTP 500`, combined message
`EXTERR; HTTP 500`. -/
theorem C6_witness :
    download ⟨none, "aria2c", true⟩ [] [.failed "EXTERR" false]
        (some ⟨500, false⟩) "x" = ([], some "EXTERR; HTTP 500") :=
  (C6_error_aggregation ⟨none, "aria2c", true⟩ [] [.failed "EXTERR" false]
      (some ⟨500, false⟩) "x").1 [] "EXTERR" [] "HTTP 500" rfl rfl rfl

/-- C7: recording the same `(modelId, versionId, fileName)` twice is idempotent —
the second call returns the ledger unchanged and does not call `_save_history`
(second component `false`) — so the version record's file list keeps its length;
and the backing file is written exactly when a new file record is appended: a
call that reports no save leaves the ledger untouched, and a call that reports a
save grew that version's file list by one. -/
theorem C7_record_idempotent (h : History) (mid : Int) (vid : Option Int)
    (fn du du' : String) :
    _record_entry (_record_entry h mid vid fn du).1 mid vid fn du' =
      ((_record_entry h mid vid fn du).1, false) ∧
    ((_record_entry h mid vid fn du).2 = false →
      (_record_entry h mid vid fn du).1 = h) ∧
    ((_record_entry h mid vid fn du).2 = true →
      (versionFiles (_record_entry h mid vid fn du).1 mid vid).length =
        (versionFiles h mid vid).length + 1) := by
  cases hfind : (histGet h (toString mid)).find? (fun e => e.id = vid) with
  | some ve =>
      by_cases hany : ve.files.any (fun f => f.name = some fn) = true
      · have hr1 : _record_entry h mid vid fn du = (h, false) := by
          simp [_record_entry, hfind, hany]
        refine ⟨?_, fun _ => by rw [hr1], fun habs => ?_⟩
        · rw [hr1]
          simp [_record_entry, hfind, hany]
        · rw [hr1] at habs
          simp at habs
      · have hr1 : _record_entry h mid vid fn du =
            (histSet h (toString mid)
              (updateFirst (fun e => e.id = vid)
                (fun e => { e with files :=
                  e.files ++ [⟨none, some fn, some du⟩] })
                (histGet h (toString mid))), true) := by
          simp [_record_entry, hfind, hany]
        set H := (_record_entry h mid vid fn du).1 with hH
        have hget : histGet H (toString mid) =
            updateFirst (fun e => e.id = vid)
              (fun e => { e with files := e.files ++ [⟨none, some fn, some du⟩] })
              (histGet h (toString mid)) := by
          rw [hH, hr1]
          exact histGet_histSet _ _ _
        have hfind2 : (updateFirst (fun e => e.id = vid)
              (fun e => { e with files := e.files ++ [⟨none, some fn, some du⟩] })
              (histGet h (toString mid))).find? (fun e => e.id = vid) =
            some { ve with files := ve.files ++ [⟨none, some fn, some du⟩] } :=
          find?_updateFirst (fun e => e.id = vid)
            (fun e => { e with files := e.files ++ [⟨none, some fn, some du⟩] })
            (fun y => rfl) _ ve hfind
        refine ⟨?_, fun habs => ?_, fun _ => ?_⟩
        · simp [_record_entry, hget, hfind2]
        · rw [hr1] at habs
          simp at habs
        · simp [versionFiles, hget, hfind2, hfind]
  | none =>
      have hr1 : _record_entry h mid vid fn du =
          (histSet h (toString mid)
            (histGet h (toString mid) ++ [⟨vid, [⟨none, some fn, some du⟩]⟩]), true) := by
        simp [_record_entry, hfind]
      set H := (_record_entry h mid vid fn du).1 with hH
      have hget : histGet H (toString mid) =
          histGet h (toString mid) ++ [⟨vid, [⟨none, some fn, some du⟩]⟩] := by
        rw [hH, hr1]
        exact histGet_histSet _ _ _
      have hfind2 : (histGet h (toString mid) ++
            [(⟨vid, [⟨none, some fn, some du⟩]⟩ : VersionRec)]).find?
              (fun e => e.id = vid) =
          some ⟨vid, [⟨none, some fn, some du⟩]⟩ := by
        rw [List.find?_append, hfind]
        simp [List.find?]
      refine ⟨?_, fun habs => ?_, fun _ => ?_⟩
      · simp [_record_entry, hget, hfind2]
      · rw [hr1] at habs
        simp at habs
      · simp [versionFiles, hget, hfind2, hfind]

/-- Witness for C7 at a concrete input: recording `(12, 67, "a.st")` on the empty
ledger and then recording it again returns the once-updated ledger unchanged with
no save. -/
theorem C7_witness :
    _record_entry (_record_entry [] 12 (some 67) "a.st" "u").1 12 (some 67) "a.st" "u2" =
      ((_record_entry [] 12 (some 67) "a.st" "u").1, false) :=
  (C7_record_idempotent [] 12 (some 67) "a.st" "u" "u2").1

theorem findFileIn_eq (dirs : List (String × List String)) (files : List FileRec) :
    findFileIn dirs files =
      ((files.filterMap (fun f => f.name)).filter (fun n => n ≠ "")).find?
        (fun n => (model_path n dirs).isSome) := by
  induction files with
  | nil => rfl
  | cons f rest ih =>
      cases hn : f.name with
      | none => simp [findFileIn, hn, ih]
      | some n =>
          by_cases hne : n = ""
          · subst hne
            simp [findFileIn, hn, ih]
          · by_cases hmp : (model_path n dirs).isSome
            · simp [findFileIn, hn, hne, hmp, List.find?_cons]
            · simp [findFileIn, hn, hne, hmp, ih, List.find?_cons]

theorem findEntryIn_eq (dirs : List (String × List String)) (vid : Option Int)
    (entries : List VersionRec) :
    findEntryIn dirs vid entries =
      ((entries.filter (fun e => vid.isNone || e.id == vid)).flatMap
          (fun e => (e.files.filterMap (fun f => f.name)).filter (fun n => n ≠ ""))).find?
        (fun n => (model_path n dirs).isSome) := by
  induction entries with
  | nil => rfl
  | cons e rest ih =>
      by_cases hskip : (vid.isSome && e.id ≠ vid) = true
      · have hkeep : (vid.isNone || e.id == vid) = false := by
          cases vid <;> simp_all
        have hfil : List.filter (fun e => vid.isNone || e.id == vid) (e :: rest) =
            List.filter (fun e => vid.isNone || e.id == vid) rest := by
          simp [List.filter_cons, hkeep]
        rw [hfil]
        simp only [findEntryIn, if_pos hskip]
        exact ih
      · have hkeep : (vid.isNone || e.id == vid) = true := by
          cases vid <;> simp_all
        have hfil : List.filter (fun e => vid.isNone || e.id == vid) (e :: rest) =
            e :: List.filter (fun e => vid.isNone || e.id == vid) rest := by
          simp [List.filter_cons, hkeep]
        rw [hfil, List.flatMap_cons, List.find?_append, ← findFileIn_eq]
        cases hf : findFileIn dirs e.files with
        | some n =>
            simp only [findEntryIn, if_neg hskip]
            rw [hf]
            rfl
        | none =>
            simp only [findEntryIn, if_neg hskip]
            rw [hf, ih]
            rfl

/-- C8: `_find_cached_entry` equals, extensionally, the spec's description: take
the ledger's version records for the model, keep them all when no version id is
requested and only those whose id equals the requested one otherwise (records
with a `null` id are thereby skipped), list their non-falsy file names in order,
and return the first name that still resolves to an existing path in the
configured directories — `none` when no listed name still resolves. -/
theorem C8_find_cached_refines (dirs : List (String × List String)) (h : History)
    (mid : Int) (vid : Option Int) :
    _find_cached_entry dirs h mid vid =
      (candidateNames h mid vid).find? (fun n => (model_path n dirs).isSome) := by
  unfold _find_cached_entry candidateNames
  exact findEntryIn_eq dirs vid (histGet h (toString mid))

theorem dropWhile_eq_self_of_not (p : Char → Bool) (cs : List Char)
    (h : ∀ c ∈ cs, p c = false) : cs.dropWhile p = cs := by
  cases cs with
  | nil => rfl
  | cons a rest =>
      rw [List.dropWhile_cons_of_neg]
      simp [h a (List.mem_cons_self a rest)]

theorem pyStripChars_id (cs : List Char) (h : ∀ c ∈ cs, c.isWhitespace = false) :
    pyStripChars cs = cs := by
  unfold pyStripChars
  rw [dropWhile_eq_self_of_not _ cs h]
  rw [dropWhile_eq_self_of_not _ cs.reverse (fun c hc => h c (List.mem_reverse.mp hc))]
  exact List.reverse_reverse cs

theorem isDigit_not_ws (c : Char) (h : c.isDigit = true) : c.isWhitespace = false := by
  by_contra hw
  have hw' : c.isWhitespace = true := by
    cases hval : c.isWhitespace
    · exact absurd hval hw
    · rfl
  have hc : ((c = ' ' ∨ c = '\t') ∨ c = '\x0d') ∨ c = '\n' := by
    simpa [Char.isWhitespace] using hw'
  rcases hc with ((rfl | rfl) | rfl) | rfl <;> exact absurd h (by decide)

theorem splitAtFirst_not_mem : ∀ (l : List Char), '@' ∉ l → splitAtFirst l = none := by
  intro l
  induction l with
  | nil => intro _; rfl
  | cons c rest ih =>
      intro hmem
      have hc : c ≠ '@' := fun he => hmem (by rw [← he]; exact List.mem_cons_self c rest)
      have hrest : '@' ∉ rest := fun hm => hmem (List.mem_cons_of_mem c hm)
      simp [splitAtFirst, hc, ih hrest]

theorem splitAtFirst_append (r : List Char) :
    ∀ (l : List Char), '@' ∉ l → splitAtFirst (l ++ '@' :: r) = some (l, r) := by
  intro l
  induction l with
  | nil => intro _; simp [splitAtFirst]
  | cons c rest ih =>
      intro hmem
      have hc : c ≠ '@' := fun he => hmem (by rw [← he]; exact List.mem_cons_self c rest)
      have hrest : '@' ∉ rest := fun hm => hmem (List.mem_cons_of_mem c hm)
      simp [splitAtFirst, hc, ih hrest]

theorem digitsValGo_all_digits :
    ∀ (l : List Char) (acc m : Nat), digitsValGo l acc = some m →
      ∀ c ∈ l, c.isDigit = true := by
  intro l
  induction l with
  | nil => intro acc m _ c hc; simp at hc
  | cons a rest ih =>
      intro acc m hgo c hc
      by_cases ha : a.isDigit = true
      · rcases List.mem_cons.mp hc with rfl | hc2
        · exact ha
        · exact ih _ m (by simpa [digitsValGo, ha] using hgo) c hc2
      · simp [digitsValGo, ha] at hgo

theorem digitsVal_all_digits (l : List Char) (m : Nat) (h : digitsVal l = some m) :
    ∀ c ∈ l, c.isDigit = true := by
  cases l with
  | nil => simp [digitsVal] at h
  | cons a rest => exact digitsValGo_all_digits (a :: rest) 0 m h

theorem digitsVal_ne_nil (l : List Char) (m : Nat) (h : digitsVal l = some m) :
    l ≠ [] := by
  intro he
  subst he
  simp [digitsVal] at h

theorem pyIntChars_digits (l : List Char) (hne : l ≠ [])
    (hd : ∀ c ∈ l, c.isDigit = true) :
    pyIntChars l = (digitsVal l).map (fun n => Int.ofNat n) := by
  have hnw : ∀ c ∈ l, c.isWhitespace = false := fun c hc => isDigit_not_ws c (hd c hc)
  have hstrip : pyStripChars l = l := pyStripChars_id l hnw
  cases l with
  | nil => exact absurd rfl hne
  | cons c rest =>
      have hc := hd c (List.mem_cons_self c rest)
      have hcm : c ≠ '-' := by
        intro he
        rw [he] at hc
        exact absurd hc (by decide)
      have hcp : c ≠ '+' := by
        intro he
        rw [he] at hc
        exact absurd hc (by decide)
      simp only [pyIntChars, hstrip, if_neg hcm, if_neg hcp]
      cases hdv : digitsVal (c :: rest) with
      | none => rfl
      | some a => rfl

theorem parse_of_split_none (s : String) (hs : ¬s = "")
    (hsplit : splitAtFirst (pyStripChars s.data) = none) :
    _parse_lora_air s =
      (match pyIntChars (pyStripChars s.data) with
        | none => .error "Invalid model ID provided"
        | some m => .ok (m, none)) := by
  simp only [_parse_lora_air, if_neg hs, hsplit]

theorem parse_of_split_some (s : String) (hs : ¬s = "") (l2 r2 : List Char)
    (hsplit : splitAtFirst (pyStripChars s.data) = some (l2, r2)) :
    _parse_lora_air s =
      (match pyIntChars l2 with
        | none => .error "Invalid model ID provided"
        | some m =>
            if r2 = [] then .ok (m, none)
            else
              match pyIntChars r2 with
              | none => .error "Invalid version ID provided"
              | some v => .ok (m, some v)) := by
  simp only [_parse_lora_air, if_neg hs, hsplit]

/-- C2: the identifier parser.  Positive forms: a plain decimal string parses to
`(m, none)`, a decimal followed by a bare `@` parses to `(m, none)` (empty right
segment), and `<decimal>@<decimal>` parses to `(m, some v)`, the split taken at
the first `@`.  Negative forms: the empty string raises the identifier-required
error; a left segment that `int()` rejects raises the invalid-model-id error
(whether or not an `@` occurs); a non-empty right segment that `int()` rejects
raises the invalid-version-id error. -/
theorem C2_parse_lora_air (l r : List Char) (m v : Nat) :
    (_parse_lora_air "" = .error "LORA AIR identifier required (ex: 12345@67890)") ∧
    (digitsVal l = some m → _parse_lora_air ⟨l⟩ = .ok ((m : Int), none)) ∧
    (digitsVal l = some m → _parse_lora_air ⟨l ++ ['@']⟩ = .ok ((m : Int), none)) ∧
    (digitsVal l = some m → digitsVal r = some v →
      _parse_lora_air ⟨l ++ '@' :: r⟩ = .ok ((m : Int), some (v : Int))) ∧
    (∀ s : String, ¬s = "" → splitAtFirst (pyStripChars s.data) = none →
      pyIntChars (pyStripChars s.data) = none →
      _parse_lora_air s = .error "Invalid model ID provided") ∧
    (∀ (s : String) (l2 r2 : List Char), ¬s = "" →
      splitAtFirst (pyStripChars s.data) = some (l2, r2) → pyIntChars l2 = none →
      _parse_lora_air s = .error "Invalid model ID provided") ∧
    (∀ (s : String) (l2 r2 : List Char) (mi : Int), ¬s = "" →
      splitAtFirst (pyStripChars s.data) = some (l2, r2) → pyIntChars l2 = some mi →
      ¬r2 = [] → pyIntChars r2 = none →
      _parse_lora_air s = .error "Invalid version ID provided") := by
  refine ⟨rfl, ?_, ?_, ?_, ?_, ?_, ?_⟩
  · intro hm
    have hd := digitsVal_all_digits l m hm
    have hne := digitsVal_ne_nil l m hm
    have hs : ¬(⟨l⟩ : String) = "" := fun he => hne (congrArg String.data he)
    have hstrip : pyStripChars l = l :=
      pyStripChars_id l (fun c hc => isDigit_not_ws c (hd c hc))
    have hat : '@' ∉ l := fun hmem => by
      have := hd '@' hmem
      exact absurd this (by decide)
    have hdata : (⟨l⟩ : String).data = l := rfl
    rw [parse_of_split_none ⟨l⟩ hs (by rw [hdata, hstrip]; exact splitAtFirst_not_mem l hat),
      hdata, hstrip, pyIntChars_digits l hne hd, hm]
    rfl
  · intro hm
    have hd := digitsVal_all_digits l m hm
    have hne := digitsVal_ne_nil l m hm
    have hs : ¬(⟨l ++ ['@']⟩ : String) = "" := by
      intro he
      have := congrArg String.data he
      simp at this
    have hnw : ∀ c ∈ l ++ ['@'], c.isWhitespace = false := by
      intro c hc
      rcases List.mem_append.mp hc with hcl | hca
      · exact isDigit_not_ws c (hd c hcl)
      · simp at hca
        rw [hca]
        decide
    have hstrip : pyStripChars (l ++ ['@']) = l ++ ['@'] := pyStripChars_id _ hnw
    have hat : '@' ∉ l := fun hmem => by
      have := hd '@' hmem
      exact absurd this (by decide)
    have hdata : (⟨l ++ ['@']⟩ : String).data = l ++ '@' :: ([] : List Char) := rfl
    rw [parse_of_split_some ⟨l ++ ['@']⟩ hs l []
        (by rw [hdata, show l ++ '@' :: ([] : List Char) = l ++ ['@'] from rfl, hstrip]
            exact splitAtFirst_append [] l hat),
      pyIntChars_digits l hne hd, hm]
    rfl
  · intro hm hv
    have hd := digitsVal_all_digits l m hm
    have hne := digitsVal_ne_nil l m hm
    have hdr := digitsVal_all_digits r v hv
    have hner := digitsVal_ne_nil r v hv
    have hs : ¬(⟨l ++ '@' :: r⟩ : String) = "" := by
      intro he
      have := congrArg String.data he
      simp at this
    have hnw : ∀ c ∈ l ++ '@' :: r, c.isWhitespace = false := by
      intro c hc
      rcases List.mem_append.mp hc with hcl | hcr
      · exact isDigit_not_ws c (hd c hcl)
      · rcases List.mem_cons.mp hcr with rfl | hcr2
        · decide
        · exact isDigit_not_ws c (hdr c hcr2)
    have hstrip : pyStripChars (l ++ '@' :: r) = l ++ '@' :: r := pyStripChars_id _ hnw
    have hat : '@' ∉ l := fun hmem => by
      have := hd '@' hmem
      exact absurd this (by decide)
    have hdata : (⟨l ++ '@' :: r⟩ : String).data = l ++ '@' :: r := rfl
    rw [parse_of_split_some ⟨l ++ '@' :: r⟩ hs l r
        (by rw [hdata, hstrip]; exact splitAtFirst_append r l hat),
      pyIntChars_digits l hne hd, hm]
    simp [hner, pyIntChars_digits r hner hdr, hv]
  · intro s hs hsplit hint
    rw [parse_of_split_none s hs hsplit, hint]
  · intro s l2 r2 hs hsplit hint
    rw [parse_of_split_some s hs l2 r2 hsplit, hint]
  · intro s l2 r2 mi hs hsplit hint hne2 hintr
    rw [parse_of_split_some s hs l2 r2 hsplit, hint]
    simp [hne2, hintr]

/-- Witness for C2 at a concrete input: `"12@345"` parses to `(12, some 345)`. -/
theorem C2_witness : _parse_lora_air "12@345" = .ok (12, some 345) :=
  (C2_parse_lora_air ['1', '2'] ['3', '4', '5'] 12 345).2.2.2.1 rfl rfl

/-- C1: the orchestrator's short-circuits.  When the existing-file override is
given (truthy) and is not the sentinel `"none"`, `load_fast_lora` returns it
unchanged having performed no action at all — no registry, transfer, or
ledger-record activity, not even a ledger read.  Otherwise, when the parsed
identifier has a cached filename in the ledger, that filename is returned with
the ledger read as the only action — no registry or transfer activity and no
ledger write. -/
theorem C1_orchestrator_short_circuits (env : LoadEnv) (lora_air lora_name : String) :
    (lora_name ≠ "" → lora_name ≠ "none" →
      load_fast_lora env lora_air lora_name = (.ok lora_name, [])) ∧
    ((lora_name = "" ∨ lora_name = "none") →
      ∀ (mid : Int) (vid : Option Int) (cached : String),
        _parse_lora_air lora_air = .ok (mid, vid) →
        _find_cached_entry env.dirs env.history mid vid = some cached →
        load_fast_lora env lora_air lora_name = (.ok cached, [Action.ledgerLoad])) := by
  constructor
  · intro h1 h2
    have hcond : (lora_name ≠ "" && lora_name ≠ "none") = true := by
      simp [h1, h2]
    simp only [load_fast_lora, if_pos hcond]
  · intro hover mid vid cached hparse hfound
    have hcond : ¬((lora_name ≠ "" && lora_name ≠ "none") = true) := by
      rcases hover with rfl | rfl <;> simp
    simp only [load_fast_lora, if_neg hcond, hparse, hfound]

/-- Witness for C1 at a concrete input: the override is `"none"`, `"12@67"`
parses, the ledger holds `b.st` for `(12, 67)` and `b.st` exists in the sample
directory, so the cached name is returned with only a ledger read. -/
theorem C1_witness :
    load_fast_lora sampleEnv "12@67" "none" = (.ok "b.st", [Action.ledgerLoad]) :=
  (C1_orchestrator_short_circuits sampleEnv "12@67" "none").2 (Or.inr rfl)
    12 (some 67) "b.st" rfl rfl

end Comfydodi
